import Mathlib

/-! Shallow embedding of the `retry` Go package (retry engine, configuration,
result accessors, and backoff strategies) together with proofs about it.

Conventions of the embedding:
* Go `error` values are modelled by the inductive `GoError`; caller-supplied
  errors are `GoError.userErr k`, the package sentinels have their own
  constructors.
* `time.Duration` is Go's `int64` nanosecond count; duration arithmetic is
  modelled on `Int` with explicit wrapping (`wrapInt64`) at each Go
  arithmetic operation, since Go signed integer arithmetic wraps around.
* A Go runtime fault (slice index out of range, `rand.Int63n` with a
  non-positive argument) is modelled by returning `none` from an
  `Option`-valued function.
* The retry loop of `TryOnConflict` is a pure function over an explicit
  state: the attempt counter, the recorded error list, the (shared, mutated)
  per-error budget map, and the trace of `OnRetry` callback invocations.
  The callback itself performs no operation visible to the engine, so the
  trace records exactly the arguments it is invoked with (attempt count and
  triggering error; the wait duration passed along with them is derived from
  a random jitter and does not influence the control path, so it is not
  modelled).
* The select between the cancellation channel and the timer is determinised
  by a cancellation schedule `Ctx.doneAt`: the cancellation branch is taken
  at the wait preceding attempt `i+1` exactly when `doneAt = some d` with
  `d ≤ i`.  `doneAt = none` is a context that never cancels.
-/

namespace RetryPkg

/-- Model of Go `error` values used by the package: the five package
sentinels from `error.go` plus opaque caller-supplied errors. -/
inductive GoError where
  | userErr : Nat → GoError
  | errorRetryIf : GoError
  | errorRetryAttemptsExceeded : GoError
  | errorRetryAttemptsByErrorExceeded : GoError
  | errorExecErrByIndexOutOfBound : GoError
  | errorExecErrNotFound : GoError
deriving DecidableEq, Repr

/-- Wrap an unbounded integer into the Go `int64` range, the semantics of
Go's wrapping signed 64-bit arithmetic. -/
def wrapInt64 (x : Int) : Int :=
  (x + 2 ^ 63) % 2 ^ 64 - 2 ^ 63

/-- Base time unit of the backoff strategies: 100ms in nanoseconds
(`baseInterval` in backoff.go, `baseTimeDuration` in the legacy file). -/
def baseInterval : Int := 100000000

/-- Default delay number from config.go (`defaultDelayNum = 5`). -/
def defaultDelayNum : Int := 5

/-- Default delay from config.go: `defaultDelayNum * time.Millisecond * 100`,
i.e. 500ms in nanoseconds. -/
def defaultDelay : Int := defaultDelayNum * 1000000 * 100

/-- Cancellation context: `doneAt = some d` means the `ctx.Done()` channel is
closed from the wait preceding attempt `d+1` on; `ctxErr` is the value
`ctx.Err()` reports (the cancellation reason). -/
structure Ctx where
  doneAt : Option Nat
  ctxErr : GoError

/-- Whether the context's done channel is observed closed at the wait whose
current attempt counter is `i`. -/
def Ctx.isDone (c : Ctx) (i : Nat) : Bool :=
  match c.doneAt with
  | some d => d ≤ i
  | none => false

/-- The fields of `Config` (config.go) that influence the engine's control
path and observable effects.  `attempts` is the global attempt budget,
`attemptsByError` the per-error budget map (modelled as an association
list with the Go map's lookup/update semantics), `retryIfFunc` the retry
predicate and `detail` the detail-recording flag. -/
structure Config where
  ctx : Ctx
  attempts : Nat
  attemptsByError : List (GoError × Nat)
  retryIfFunc : GoError → Bool
  detail : Bool

/-- Go map read `m[err]`: `some v` when the key is present. -/
def mapLookup : List (GoError × Nat) → GoError → Option Nat
  | [], _ => none
  | (k, v) :: rest, key => if k = key then some v else mapLookup rest key

/-- Go map write `m[err] = v`. -/
def mapUpdate : List (GoError × Nat) → GoError → Nat → List (GoError × Nat)
  | [], key, v => [(key, v)]
  | (k, v') :: rest, key, v =>
      if k = key then (key, v) :: rest else (k, v') :: mapUpdate rest key v

/-- The `Result` produced by a run of `TryOnConflict` (retry.go), extended
with the two effects the Go code performs on shared state so that the
embedding is pure: the final contents of the shared per-error budget map
and the trace of `OnRetry` callback invocations (attempt count and
triggering error of each call, in order). -/
structure Result where
  count : Nat
  data : Option Nat
  tryError : Option GoError
  execErrors : List GoError
  attemptsByError : List (GoError × Nat)
  onRetryCalls : List (Nat × GoError)
deriving DecidableEq, Repr

/-- The retry loop of `TryOnConflict` (retry.go lines 120-230).  `fn i` is
the outcome of the `i`-th invocation of the operation (0-based), modelling
the stateful Go closure as its sequence of outcomes.  `fuel` bounds the
number of loop iterations; `TryOnConflict` supplies `attempts + 1`, which
always suffices because the loop returns as soon as `count` reaches
`attempts` (the `fuel = 0` fallback is unreachable from `TryOnConflict`).
The remaining arguments thread the loop state: current `result.count`,
current `result.execErrors`, current contents of the shared
`config.attemptsByError` map, and the `OnRetry` trace so far. -/
def go (cfg : Config) (fn : Nat → Except GoError Nat) :
    Nat → Nat → List GoError → List (GoError × Nat) → List (Nat × GoError) → Result
  | 0, count, errs, m, trace => ⟨count, none, none, errs, m, trace⟩
  | fuel + 1, count, errs, m, trace =>
    if (cfg.ctx.isDone count) = true then
      -- case <-ctx.Done(): result.tryError = ctx.Err()
      ⟨count, none, some cfg.ctx.ctxErr, errs, m, trace⟩
    else
      -- case <-tr.C: data, err := fn(); result.count++
      match fn count with
      | .ok d =>
        -- err == nil: set data, return
        ⟨count + 1, some d, none, errs, m, trace⟩
      | .error err =>
        let count' := count + 1
        -- if config.detail { append the error }
        let errs' := if cfg.detail = true then errs ++ [err] else errs
        -- if !config.retryIfFunc(err) { return ErrorRetryIf }
        if cfg.retryIfFunc err = false then
          ⟨count', none, some .errorRetryIf, errs', m, trace⟩
        else
          -- config.callback.OnRetry(count, backoff, err)
          let trace' := trace ++ [(count', err)]
          match mapLookup m err with
          | some errAttempts =>
            if errAttempts = 0 then
              -- per-error budget exhausted
              ⟨count', none, some .errorRetryAttemptsByErrorExceeded, errs', m, trace'⟩
            else
              -- errAttempts--; config.attemptsByError[err] = errAttempts
              let m' := mapUpdate m err (errAttempts - 1)
              if cfg.attempts ≤ count' then
                -- global budget exhausted
                ⟨count', none, some .errorRetryAttemptsExceeded, errs', m', trace'⟩
              else
                go cfg fn fuel count' errs' m' trace'
          | none =>
            if cfg.attempts ≤ count' then
              ⟨count', none, some .errorRetryAttemptsExceeded, errs', m, trace'⟩
            else
              go cfg fn fuel count' errs' m trace'

/-- The `TryOnConflict` method (retry.go): run the retry loop from a fresh
`Result`.  In the Go code `result.count` is incremented exactly once,
immediately after each invocation of `fn`, so `count` is also the number of
times the operation was invoked. -/
def TryOnConflict (cfg : Config) (fn : Nat → Except GoError Nat) : Result :=
  go cfg fn (cfg.attempts + 1) 0 [] cfg.attemptsByError []

/-- Normalization of the global attempt budget performed by
`isConfigValid` (config.go): values outside `(0, maxUint16)` are replaced by
the default of 3. -/
def normalizeAttempts (a : Nat) : Nat :=
  if a = 0 ∨ 65535 ≤ a then 3 else a

/-- The `LastExecError` accessor (retry.go): last recorded error, or the
`ErrorExecErrNotFound` sentinel when the list is empty. -/
def Result.LastExecError (r : Result) : GoError :=
  if h : 0 < r.execErrors.length then
    r.execErrors.get ⟨r.execErrors.length - 1, by omega⟩
  else
    .errorExecErrNotFound

/-- The `FirstExecError` accessor (retry.go): first recorded error, or the
`ErrorExecErrNotFound` sentinel when the list is empty. -/
def Result.FirstExecError (r : Result) : GoError :=
  if h : 0 < r.execErrors.length then
    r.execErrors.get ⟨0, h⟩
  else
    .errorExecErrNotFound

/-- The `ExecErrorByIndex` accessor (retry.go).  The Go guard is
`len(r.execErrors) >= 0 && idx < len(r.execErrors)`; its first conjunct is
always true, so a negative `idx` with a non-empty list reaches the slice
indexing `r.execErrors[idx]`, which in Go faults at runtime (index out of
range).  The runtime fault is modelled as `none`. -/
def Result.ExecErrorByIndex (r : Result) (idx : Int) : Option GoError :=
  if 0 ≤ (r.execErrors.length : Int) ∧ idx < (r.execErrors.length : Int) then
    if h : 0 ≤ idx ∧ idx.toNat < r.execErrors.length then
      some (r.execErrors.get ⟨idx.toNat, h.2⟩)
    else
      none
  else
    some .errorExecErrByIndexOutOfBound

/-- The `FixedBackoff` strategy (backoff.go): guarded fixed interval. -/
def FixedBackoff (interval : Int) : Int :=
  if interval ≤ 0 then defaultDelay else wrapInt64 (interval * baseInterval)

/-- The `RandomBackoff` strategy (backoff.go).  `sample` is the value drawn
from `randGen.Int63n(maxInterval)`, so a caller of the theorems below is
expected to instantiate it with `0 ≤ sample < maxInterval`; the guard on
`maxInterval` returns before any drawing happens, exactly as in the code. -/
def RandomBackoff (sample : Int) (maxInterval : Int) : Int :=
  if maxInterval ≤ 0 then defaultDelay else wrapInt64 (sample * baseInterval)

/-- The `ExponentialBackoff` strategy (backoff.go): guarded, with the
exponent clamped to `maxExponent = 62`.  For exponents in `[1, 62]` the Go
expression `int64(math.Exp2(float64(power)))` is exact and equals
`2 ^ power`, which is how it is rendered here. -/
def ExponentialBackoff (power : Int) : Int :=
  if power ≤ 0 then defaultDelay
  else wrapInt64 (2 ^ (min power 62).toNat * baseInterval)

/-- The `CombineBackoffs` combinator (backoff.go): an empty list degenerates
to `FixedBackoff`; otherwise the constituents' outputs are summed (with Go
`time.Duration` wrapping addition) and a non-positive total is replaced by
the default delay. -/
def CombineBackoffs (backoffs : List (Int → Int)) : Int → Int :=
  match backoffs with
  | [] => FixedBackoff
  | _ :: _ => fun n =>
    let totalDelay := backoffs.foldl (fun acc f => wrapInt64 (acc + f n)) 0
    if totalDelay ≤ 0 then defaultDelay else totalDelay

/-- The legacy `FixBackOff` strategy (the unnamed legacy backoff file):
`time.Duration(delay) * baseTimeDuration`, with no guard at all. -/
def FixBackOff (delay : Int) : Int :=
  wrapInt64 (delay * baseInterval)

/-- The legacy `RandomBackOff` strategy (the unnamed legacy backoff file):
`time.Duration(rand.Int63n(delay)) * baseTimeDuration`.  `rand.Int63n`
faults at runtime when its argument is non-positive; the fault is modelled
as `none`.  `sample` is the value drawn when `delay` is positive. -/
def RandomBackOff (sample : Int) (delay : Int) : Option Int :=
  if delay ≤ 0 then none
  else some (wrapInt64 (sample * baseInterval))

/-- The legacy `CombineBackOffs` combinator (the unnamed legacy backoff
file): always sums the constituents' outputs (wrapping addition) and
replaces a non-positive total by the default delay; there is no special
case for an empty list. -/
def CombineBackOffs (backoffs : List (Int → Int)) : Int → Int :=
  fun n =>
    let delay := backoffs.foldl (fun acc f => wrapInt64 (acc + f n)) 0
    if delay ≤ 0 then defaultDelay else delay

/-- Expected argument of each `OnRetry` call: for the attempt invoked at
counter value `i` (so reported as attempt `i + 1`), `OnRetry` is called with
`(i + 1, e)` exactly when the attempt failed with `e` and the retry
predicate accepted `e`; otherwise it is not called for that attempt. -/
def onRetryStep (cfg : Config) (fn : Nat → Except GoError Nat) (i : Nat) :
    Option (Nat × GoError) :=
  match fn i with
  | .ok _ => none
  | .error e => if cfg.retryIfFunc e = false then none else some (i + 1, e)

/-- Outputs of a list of backoff functions at a common input. -/
def outputs (fs : List (Int → Int)) (n : Int) : List Int :=
  fs.map fun f => f n

theorem one_le_normalizeAttempts (a : Nat) : 1 ≤ normalizeAttempts a := by
  unfold normalizeAttempts
  split <;> omega

theorem wrapInt64_eq_self (x : Int) (h : x.natAbs < 2 ^ 63) : wrapInt64 x = x := by
  unfold wrapInt64
  have h1 : 0 ≤ x + 2 ^ 63 := by omega
  have h2 : x + 2 ^ 63 < 2 ^ 64 := by omega
  rw [Int.emod_eq_of_lt h1 h2]
  omega

theorem foldl_wrap_eq_sum (xs : List Int) :
    ∀ acc : Int, (∀ k : Nat, (acc + (xs.take k).sum).natAbs < 2 ^ 63) →
      xs.foldl (fun a x => wrapInt64 (a + x)) acc = acc + xs.sum := by
  induction xs with
  | nil => intro acc h; simp
  | cons x xs ih =>
    intro acc h
    have h1 : (acc + x).natAbs < 2 ^ 63 := by
      have := h 1
      simp [List.take_succ_cons] at this
      omega
    rw [List.foldl_cons, wrapInt64_eq_self _ h1, ih (acc + x) ?_]
    · simp [List.sum_cons]; ring
    · intro k
      have := h (k + 1)
      simp [List.take_succ_cons, List.sum_cons] at this ⊢
      omega

theorem go_count_le (cfg : Config) (fn : Nat → Except GoError Nat) :
    ∀ fuel count errs m trace, count ≤ (go cfg fn fuel count errs m trace).count := by
  intro fuel
  induction fuel with
  | zero => intro count errs m trace; simp [go]
  | succ fuel ih =>
    intro count errs m trace
    rw [go]
    by_cases hc : cfg.ctx.isDone count = true
    · simp [hc]
    · simp only [if_neg hc]
      cases hfn : fn count with
      | ok d => simp
      | error e =>
        simp only []
        by_cases hp : cfg.retryIfFunc e = false
        · simp [hp]
        · simp only [if_neg hp]
          cases hml : mapLookup m e with
          | some k =>
            simp only [hml]
            by_cases hk : k = 0
            · simp [hk]
            · simp only [if_neg hk]
              by_cases ha : cfg.attempts ≤ count + 1
              · simp [ha]
              · simp only [if_neg ha]
                exact le_trans (by omega) (ih (count + 1) _ _ _)
          | none =>
            simp only [hml]
            by_cases ha : cfg.attempts ≤ count + 1
            · simp [ha]
            · simp only [if_neg ha]
              exact le_trans (by omega) (ih (count + 1) _ _ _)

theorem go_onRetry_trace (cfg : Config) (fn : Nat → Except GoError Nat) :
    ∀ fuel count errs m trace,
      (go cfg fn fuel count errs m trace).onRetryCalls =
        trace ++ (List.range' count ((go cfg fn fuel count errs m trace).count - count)).filterMap
          (onRetryStep cfg fn) := by
  intro fuel
  induction fuel with
  | zero => intro count errs m trace; simp [go]
  | succ fuel ih =>
    intro count errs m trace
    rw [go]
    by_cases hc : cfg.ctx.isDone count = true
    · simp [hc]
    · simp only [if_neg hc]
      cases hfn : fn count with
      | ok d =>
        simp [List.range'_succ, onRetryStep, hfn]
      | error e =>
        simp only []
        by_cases hp : cfg.retryIfFunc e = false
        · simp [hp, List.range'_succ, onRetryStep, hfn]
        · simp only [if_neg hp]
          have hstep : onRetryStep cfg fn count = some (count + 1, e) := by
            simp [onRetryStep, hfn, hp]
          cases hml : mapLookup m e with
          | some k =>
            simp only [hml]
            by_cases hk : k = 0
            · simp [hk, List.range'_succ, hstep]
            · simp only [if_neg hk]
              by_cases ha : cfg.attempts ≤ count + 1
              · simp [ha, List.range'_succ, hstep]
              · simp only [if_neg ha]
                have hle := go_count_le cfg fn fuel (count + 1)
                  (if cfg.detail = true then errs ++ [e] else errs)
                  (mapUpdate m e (k - 1)) (trace ++ [(count + 1, e)])
                rw [ih]
                have hsub : (go cfg fn fuel (count + 1)
                    (if cfg.detail = true then errs ++ [e] else errs)
                    (mapUpdate m e (k - 1)) (trace ++ [(count + 1, e)])).count - count =
                    ((go cfg fn fuel (count + 1)
                    (if cfg.detail = true then errs ++ [e] else errs)
                    (mapUpdate m e (k - 1)) (trace ++ [(count + 1, e)])).count - (count + 1)) + 1 := by
                  omega
                rw [hsub, List.range'_succ, List.filterMap_cons, hstep]
                simp
          | none =>
            simp only [hml]
            by_cases ha : cfg.attempts ≤ count + 1
            · simp [ha, List.range'_succ, hstep]
            · simp only [if_neg ha]
              have hle := go_count_le cfg fn fuel (count + 1)
                (if cfg.detail = true then errs ++ [e] else errs) m (trace ++ [(count + 1, e)])
              rw [ih]
              have hsub : (go cfg fn fuel (count + 1)
                  (if cfg.detail = true then errs ++ [e] else errs) m
                  (trace ++ [(count + 1, e)])).count - count =
                  ((go cfg fn fuel (count + 1)
                  (if cfg.detail = true then errs ++ [e] else errs) m
                  (trace ++ [(count + 1, e)])).count - (count + 1)) + 1 := by
                omega
              rw [hsub, List.range'_succ, List.filterMap_cons, hstep]
              simp

theorem go_execErrors_len (cfg : Config) (fn : Nat → Except GoError Nat)
    (hd : cfg.detail = true) :
    ∀ fuel count errs m trace,
      cfg.attempts + 1 ≤ fuel + count → count ≤ cfg.attempts →
      (go cfg fn fuel count errs m trace).execErrors.length + count +
        (if (go cfg fn fuel count errs m trace).tryError = none then 1 else 0) =
        errs.length + (go cfg fn fuel count errs m trace).count := by
  intro fuel
  induction fuel with
  | zero => intro count errs m trace h1 h2; omega
  | succ fuel ih =>
    intro count errs m trace h1 h2
    rw [go]
    by_cases hc : cfg.ctx.isDone count = true
    · simp [hc]
    · simp only [if_neg hc]
      cases hfn : fn count with
      | ok d => simp; omega
      | error e =>
        simp only []
        by_cases hp : cfg.retryIfFunc e = false
        · simp [hp, hd]; omega
        · simp only [if_neg hp]
          cases hml : mapLookup m e with
          | some k =>
            simp only []
            by_cases hk : k = 0
            · simp [hk, hd]; omega
            · simp only [if_neg hk]
              by_cases ha : cfg.attempts ≤ count + 1
              · simp [ha, hd]; omega
              · simp only [if_neg ha]
                have := ih (count + 1) (if cfg.detail = true then errs ++ [e] else errs)
                  (mapUpdate m e (k - 1)) (trace ++ [(count + 1, e)]) (by omega) (by omega)
                simp only [hd, if_true] at this
                simp only [hd, if_true]
                simp [List.length_append] at this
                omega
          | none =>
            simp only []
            by_cases ha : cfg.attempts ≤ count + 1
            · simp [ha, hd]; omega
            · simp only [if_neg ha]
              have := ih (count + 1) (if cfg.detail = true then errs ++ [e] else errs)
                m (trace ++ [(count + 1, e)]) (by omega) (by omega)
              simp only [hd, if_true] at this
              simp only [hd, if_true]
              simp [List.length_append] at this
              omega

theorem go_global (cfg : Config) (fn : Nat → Except GoError Nat)
    (hctx : cfg.ctx.doneAt = none)
    (hfail : ∀ i, ∃ e, fn i = .error e)
    (hpred : ∀ e, cfg.retryIfFunc e = true) :
    ∀ fuel count errs trace, count < cfg.attempts → cfg.attempts ≤ count + fuel →
      (go cfg fn fuel count errs [] trace).count = cfg.attempts ∧
      (go cfg fn fuel count errs [] trace).tryError = some .errorRetryAttemptsExceeded := by
  intro fuel
  induction fuel with
  | zero => intro count errs trace h1 h2; omega
  | succ fuel ih =>
    intro count errs trace h1 h2
    rw [go]
    have hc : cfg.ctx.isDone count = false := by simp [Ctx.isDone, hctx]
    simp only [hc, Bool.false_eq_true, if_neg, if_false]
    obtain ⟨e, he⟩ := hfail count
    rw [he]
    simp only []
    have hp : ¬ (cfg.retryIfFunc e = false) := by simp [hpred e]
    simp only [if_neg hp]
    have hml : mapLookup [] e = none := rfl
    rw [hml]
    simp only []
    by_cases ha : cfg.attempts ≤ count + 1
    · simp [ha]; omega
    · simp only [if_neg ha]
      exact ih (count + 1) _ _ (by omega) (by omega)

theorem go_perError (cfg : Config) (fn : Nat → Except GoError Nat) (E : GoError)
    (hctx : cfg.ctx.doneAt = none)
    (hfail : ∀ i, fn i = .error E)
    (hpred : cfg.retryIfFunc E = true) :
    ∀ k fuel count errs trace, count + k < cfg.attempts → k + 1 ≤ fuel →
      (go cfg fn fuel count errs [(E, k)] trace).count = count + k + 1 ∧
      (go cfg fn fuel count errs [(E, k)] trace).tryError =
        some .errorRetryAttemptsByErrorExceeded := by
  intro k
  induction k with
  | zero =>
    intro fuel count errs trace h1 h2
    match fuel, h2 with
    | fuel + 1, _ =>
      rw [go]
      have hc : cfg.ctx.isDone count = false := by simp [Ctx.isDone, hctx]
      simp only [hc, Bool.false_eq_true, if_neg, if_false]
      rw [hfail count]
      simp only []
      have hp : ¬ (cfg.retryIfFunc E = false) := by simp [hpred]
      simp only [if_neg hp]
      have hml : mapLookup [(E, 0)] E = some 0 := by simp [mapLookup]
      rw [hml]
      simp
  | succ k ih =>
    intro fuel count errs trace h1 h2
    match fuel, h2 with
    | fuel + 1, _ =>
      rw [go]
      have hc : cfg.ctx.isDone count = false := by simp [Ctx.isDone, hctx]
      simp only [hc, Bool.false_eq_true, if_neg, if_false]
      rw [hfail count]
      simp only []
      have hp : ¬ (cfg.retryIfFunc E = false) := by simp [hpred]
      simp only [if_neg hp]
      have hml : mapLookup [(E, k + 1)] E = some (k + 1) := by simp [mapLookup]
      rw [hml]
      simp only []
      have hk : ¬ (k + 1 = 0) := by omega
      simp only [if_neg hk]
      have ha : ¬ (cfg.attempts ≤ count + 1) := by omega
      simp only [if_neg ha]
      have hupd : mapUpdate [(E, k + 1)] E (k + 1 - 1) = [(E, k)] := by simp [mapUpdate]
      rw [hupd]
      have := ih fuel (count + 1) (if cfg.detail = true then errs ++ [E] else errs)
        (trace ++ [(count + 1, E)]) (by omega) (by omega)
      constructor
      · rw [this.1]; omega
      · exact this.2

/-- Claim C1: for every operation that always fails, with a (normalized,
hence positive) global attempt budget, an always-true retry predicate and
an empty per-error budget map, `TryOnConflict` invokes the operation
exactly `attempts` times (the counter is incremented once per invocation,
so `count` is the number of invocations) and returns a `Result` whose
terminal error is `ErrorRetryAttemptsExceeded` and whose attempt count
equals the budget. -/
theorem TryOnConflict_global_exhaustion (cfg : Config) (fn : Nat → Except GoError Nat)
    (hN : 1 ≤ cfg.attempts) (hctx : cfg.ctx.doneAt = none)
    (hmap : cfg.attemptsByError = [])
    (hfail : ∀ i, ∃ e, fn i = .error e)
    (hpred : ∀ e, cfg.retryIfFunc e = true) :
    (TryOnConflict cfg fn).count = cfg.attempts ∧
    (TryOnConflict cfg fn).tryError = some .errorRetryAttemptsExceeded := by
  unfold TryOnConflict
  rw [hmap]
  exact go_global cfg fn hctx hfail hpred (cfg.attempts + 1) 0 [] [] (by omega) (by omega)

/-- Witness for claim C1 at budget 2 with an always-failing operation. -/
theorem TryOnConflict_global_exhaustion_witness :
    (TryOnConflict ⟨⟨none, .userErr 7⟩, 2, [], fun _ => true, false⟩
      (fun _ => .error (.userErr 0))).count = 2 ∧
    (TryOnConflict ⟨⟨none, .userErr 7⟩, 2, [], fun _ => true, false⟩
      (fun _ => .error (.userErr 0))).tryError = some .errorRetryAttemptsExceeded :=
  TryOnConflict_global_exhaustion _ _ (by decide) rfl rfl
    (fun _ => ⟨.userErr 0, rfl⟩) (fun _ => rfl)

/-- Claim C2, counterexample: with a global budget of 1 and an
always-failing operation under an always-true predicate, the single attempt
is terminal (global exhaustion), yet `OnRetry` is invoked for it — the
trace is `[(1, userErr 0)]` although no retry follows.  This refutes the
claim that `onRetry` is never invoked on the terminal attempt: in the code
the callback runs before the per-error and global budget checks. -/
theorem onRetry_on_terminal_attempt_cex :
    TryOnConflict ⟨⟨none, .userErr 9⟩, 1, [], fun _ => true, false⟩
      (fun _ => .error (.userErr 0)) =
    ⟨1, none, some .errorRetryAttemptsExceeded, [], [], [(1, .userErr 0)]⟩ := by
  decide

/-- Claim C2, amended: `OnRetry` is invoked exactly once for every failing
attempt whose error the retry predicate accepts — including the attempt on
which per-error or global budget exhaustion is detected — and never for a
successful attempt, never for a predicate-rejected attempt, and never for
an attempt that was not executed (cancellation): the trace of calls is
exactly `onRetryStep` filtered over the executed attempts. -/
theorem TryOnConflict_onRetry_trace (cfg : Config) (fn : Nat → Except GoError Nat) :
    (TryOnConflict cfg fn).onRetryCalls =
      (List.range (TryOnConflict cfg fn).count).filterMap (onRetryStep cfg fn) := by
  have h := go_onRetry_trace cfg fn (cfg.attempts + 1) 0 [] cfg.attemptsByError []
  simpa [TryOnConflict, List.range_eq_range'] using h

/-- Claim C3: for every operation that always fails with an error `E` whose
per-error budget entry is `K`, with a global budget strictly greater than
`K` and an always-true predicate, `TryOnConflict` terminates with
`ErrorRetryAttemptsByErrorExceeded` at attempt `K + 1`, before the global
check fires: the entry counts down from `K` and exhaustion is detected when
the remaining count is 0 on entry to the per-error check. -/
theorem TryOnConflict_per_error_exhaustion (cfg : Config) (fn : Nat → Except GoError Nat)
    (E : GoError) (K : Nat)
    (hctx : cfg.ctx.doneAt = none)
    (hfail : ∀ i, fn i = .error E)
    (hpred : ∀ e, cfg.retryIfFunc e = true)
    (hmap : cfg.attemptsByError = [(E, K)])
    (hK : K < cfg.attempts) :
    (TryOnConflict cfg fn).count = K + 1 ∧
    (TryOnConflict cfg fn).tryError = some .errorRetryAttemptsByErrorExceeded := by
  unfold TryOnConflict
  rw [hmap]
  have := go_perError cfg fn E hctx hfail (hpred E) K (cfg.attempts + 1) 0 [] []
    (by omega) (by omega)
  simpa using this

/-- Witness for claim C3 with per-error budget 2 and global budget 5:
termination at attempt 3 with the per-error sentinel. -/
theorem TryOnConflict_per_error_exhaustion_witness :
    (TryOnConflict ⟨⟨none, .userErr 7⟩, 5, [(.userErr 1, 2)], fun _ => true, false⟩
      (fun _ => .error (.userErr 1))).count = 3 ∧
    (TryOnConflict ⟨⟨none, .userErr 7⟩, 5, [(.userErr 1, 2)], fun _ => true, false⟩
      (fun _ => .error (.userErr 1))).tryError = some .errorRetryAttemptsByErrorExceeded :=
  TryOnConflict_per_error_exhaustion _ _ (.userErr 1) 2 rfl (fun _ => rfl) (fun _ => rfl)
    rfl (by decide)

/-- Claim C4: when the first invocation fails with an error the retry
predicate rejects, `TryOnConflict` returns immediately — regardless of the
global budget and of any per-error budget entries — with terminal error
`ErrorRetryIf` and attempt count 1. -/
theorem TryOnConflict_predicate_reject (cfg : Config) (fn : Nat → Except GoError Nat)
    (E : GoError)
    (hc : cfg.ctx.isDone 0 = false) (h0 : fn 0 = .error E)
    (hp : cfg.retryIfFunc E = false) :
    (TryOnConflict cfg fn).tryError = some .errorRetryIf ∧
    (TryOnConflict cfg fn).count = 1 := by
  unfold TryOnConflict
  rw [go]
  simp [hc, h0, hp]

/-- Witness for claim C4: a rejecting predicate with ample remaining
budgets still terminates at attempt 1 with `ErrorRetryIf`. -/
theorem TryOnConflict_predicate_reject_witness :
    (TryOnConflict ⟨⟨none, .userErr 7⟩, 3, [(.userErr 0, 5)], fun _ => false, true⟩
      (fun _ => .error (.userErr 0))).tryError = some .errorRetryIf ∧
    (TryOnConflict ⟨⟨none, .userErr 7⟩, 3, [(.userErr 0, 5)], fun _ => false, true⟩
      (fun _ => .error (.userErr 0))).count = 1 :=
  TryOnConflict_predicate_reject _ _ (.userErr 0) rfl rfl rfl

/-- Claim C5: if the cancellation token fires before the first wait
elapses, `TryOnConflict` returns attempt count 0 (so the operation is never
invoked: the counter is incremented once per invocation), the terminal
error is the context's own error verbatim (not wrapped in any retry
sentinel), no attempt error is recorded, the per-error map is untouched and
the callback is never invoked. -/
theorem TryOnConflict_cancelled (cfg : Config) (fn : Nat → Except GoError Nat)
    (h : cfg.ctx.doneAt = some 0) :
    TryOnConflict cfg fn = ⟨0, none, some cfg.ctx.ctxErr, [], cfg.attemptsByError, []⟩ := by
  unfold TryOnConflict
  rw [go]
  simp [Ctx.isDone, h]

/-- Witness for claim C5: cancellation with reason `userErr 3` before the
first wait, for an operation that would succeed. -/
theorem TryOnConflict_cancelled_witness :
    TryOnConflict ⟨⟨some 0, .userErr 3⟩, 3, [(.userErr 0, 1)], fun _ => true, true⟩
      (fun _ => .ok 4) =
    ⟨0, none, some (.userErr 3), [], [(.userErr 0, 1)], []⟩ :=
  TryOnConflict_cancelled _ _ rfl

/-- Claim C6: with detail recording enabled, the recorded attempt-error
list of the returned `Result` has length equal to the attempt count minus 1
when the run ended in success, and equal to the attempt count otherwise
(including cancellation and every failure terminal). -/
theorem TryOnConflict_execErrors_length (cfg : Config) (fn : Nat → Except GoError Nat)
    (hd : cfg.detail = true) :
    (TryOnConflict cfg fn).execErrors.length =
      (TryOnConflict cfg fn).count -
        (if (TryOnConflict cfg fn).tryError = none then 1 else 0) := by
  have h := go_execErrors_len cfg fn hd (cfg.attempts + 1) 0 [] cfg.attemptsByError []
    (by omega) (by omega)
  unfold TryOnConflict at *
  simp only [List.length_nil, Nat.zero_add, Nat.add_zero] at h
  split at h <;> split <;> first | omega | simp_all

/-- Witness for claim C6: one failure then success with detail on, so the
attempt count is 2 and exactly one error is recorded. -/
theorem TryOnConflict_execErrors_length_witness :
    (TryOnConflict ⟨⟨none, .userErr 7⟩, 3, [], fun _ => true, true⟩
      (fun i => if i = 0 then .error (.userErr 0) else .ok 5)).execErrors.length =
      (TryOnConflict ⟨⟨none, .userErr 7⟩, 3, [], fun _ => true, true⟩
        (fun i => if i = 0 then .error (.userErr 0) else .ok 5)).count -
        (if (TryOnConflict ⟨⟨none, .userErr 7⟩, 3, [], fun _ => true, true⟩
          (fun i => if i = 0 then .error (.userErr 0) else .ok 5)).tryError = none
         then 1 else 0) :=
  TryOnConflict_execErrors_length _ _ rfl

/-- Claim C7: lookups on an empty recorded list do return the not-found
sentinel, and an index at or beyond the length does return the
out-of-bounds sentinel — but a negative index on a non-empty list does not:
the Go guard `len(r.execErrors) >= 0 && idx < len(r.execErrors)` is
vacuous in its first conjunct (clearly a slip for `idx >= 0`), so
`ExecErrorByIndex(-1)` reaches the slice indexing and faults at runtime
(modelled as `none`) instead of returning the sentinel. -/
theorem ExecErrorByIndex_negative_index_fault :
    (Result.mk 1 none (some (.userErr 0)) [.userErr 0] [] []).ExecErrorByIndex (-1) = none ∧
    (Result.mk 0 none (some (.userErr 0)) [] [] []).LastExecError = .errorExecErrNotFound ∧
    (Result.mk 0 none (some (.userErr 0)) [] [] []).FirstExecError = .errorExecErrNotFound ∧
    (Result.mk 0 none (some (.userErr 0)) [] [] []).ExecErrorByIndex 0 =
      some .errorExecErrByIndexOutOfBound ∧
    (Result.mk 1 none (some (.userErr 0)) [.userErr 0] [] []).ExecErrorByIndex 1 =
      some .errorExecErrByIndexOutOfBound := by
  decide

/-- Claim C8, counterexample: the legacy `RandomBackOff` (one of the
repository's backoff strategy functions, cited by the claim) is not total
on non-positive inputs: `rand.Int63n(0)` faults at runtime instead of
yielding the default delay; likewise the legacy `FixBackOff 0` returns 0
rather than the default delay. -/
theorem RandomBackOff_nonpositive_cex :
    RandomBackOff 0 0 = none ∧ RandomBackOff 0 0 ≠ some defaultDelay ∧
    FixBackOff 0 = 0 ∧ FixBackOff 0 ≠ defaultDelay := by
  decide

/-- Claim C8, amended: the guarded strategies of backoff.go are total and
substitute the default delay for every non-positive input, and
`ExponentialBackoff` clamps its exponent to at most 62 (the output at any
exponent of 62 or more equals the output at 62). -/
theorem backoff_guarded_total (n sample p : Int) (hn : n ≤ 0) (hp : 62 ≤ p) :
    FixedBackoff n = defaultDelay ∧ RandomBackoff sample n = defaultDelay ∧
    ExponentialBackoff n = defaultDelay ∧ ExponentialBackoff p = ExponentialBackoff 62 := by
  refine ⟨by simp [FixedBackoff, hn], by simp [RandomBackoff, hn],
    by simp [ExponentialBackoff, hn], ?_⟩
  unfold ExponentialBackoff
  rw [if_neg (by omega : ¬ p ≤ 0), if_neg (by norm_num : ¬ (62 : Int) ≤ 0)]
  rw [min_eq_right hp]
  norm_num

/-- Witness for amended claim C8 at input 0 and exponent 63. -/
theorem backoff_guarded_total_witness :
    FixedBackoff 0 = defaultDelay ∧ RandomBackoff 0 0 = defaultDelay ∧
    ExponentialBackoff 0 = defaultDelay ∧ ExponentialBackoff 63 = ExponentialBackoff 62 :=
  backoff_guarded_total 0 0 63 (by decide) (by decide)

/-- Claim C9, counterexample: combining an empty list with the legacy
`CombineBackOffs` does not degenerate to the fixed strategy: at input 7 it
yields the default delay (500ms) while both fixed strategies yield 700ms.
The backoff.go `CombineBackoffs` does return `FixedBackoff` for the empty
list. -/
theorem CombineBackOffs_empty_not_fixed_cex :
    CombineBackOffs [] 7 = defaultDelay ∧ CombineBackOffs [] 7 ≠ FixBackOff 7 ∧
    CombineBackOffs [] 7 ≠ FixedBackoff 7 ∧ CombineBackoffs [] 7 = FixedBackoff 7 := by
  decide

/-- Claim C9, amended: `CombineBackoffs` (backoff.go) literally degenerates
to `FixedBackoff` on an empty list, and on a non-empty list returns the sum
of the constituents' outputs when that sum is positive and the default
delay otherwise; the legacy `CombineBackOffs` applies that sum-or-default
rule to every list, including the empty one (whence the counterexample:
its empty-list behaviour is the constant default delay, not the fixed
strategy).  The sum hypothesis keeps every partial sum inside the `int64`
range, so Go's wrapping addition agrees with the mathematical sum. -/
theorem Combine_backoffs_sum (fs : List (Int → Int)) (n : Int)
    (hb : ∀ k : Nat, (((outputs fs n).take k).sum).natAbs < 2 ^ 63) :
    CombineBackoffs [] = FixedBackoff ∧
    CombineBackOffs fs n =
      (if (outputs fs n).sum ≤ 0 then defaultDelay else (outputs fs n).sum) ∧
    (fs ≠ [] → CombineBackoffs fs n =
      (if (outputs fs n).sum ≤ 0 then defaultDelay else (outputs fs n).sum)) := by
  have hfold : fs.foldl (fun acc f => wrapInt64 (acc + f n)) 0 = (outputs fs n).sum := by
    have h := foldl_wrap_eq_sum (outputs fs n) 0 (by simpa using hb)
    rw [outputs, List.foldl_map] at h
    simpa using h
  refine ⟨rfl, ?_, ?_⟩
  · unfold CombineBackOffs
    simp only [hfold]
  · intro hne
    cases fs with
    | nil => exact absurd rfl hne
    | cons f rest =>
      unfold CombineBackoffs
      simp only [hfold]

/-- Witness for amended claim C9 on two fixed constituents at input 2. -/
theorem Combine_backoffs_sum_witness :
    CombineBackoffs [] = FixedBackoff ∧
    CombineBackOffs [FixedBackoff, FixedBackoff] 2 =
      (if (outputs [FixedBackoff, FixedBackoff] 2).sum ≤ 0 then defaultDelay
       else (outputs [FixedBackoff, FixedBackoff] 2).sum) ∧
    ([FixedBackoff, FixedBackoff] ≠ ([] : List (Int → Int)) →
      CombineBackoffs [FixedBackoff, FixedBackoff] 2 =
        (if (outputs [FixedBackoff, FixedBackoff] 2).sum ≤ 0 then defaultDelay
         else (outputs [FixedBackoff, FixedBackoff] 2).sum)) :=
  Combine_backoffs_sum [FixedBackoff, FixedBackoff] 2 (by
    intro k
    match k with
    | 0 => decide
    | 1 => decide
    | k + 2 =>
      rw [List.take_of_length_le (by simp [outputs])]
      decide)

/-- Claim C10: on any loop iteration whose attempt fails with an error the
retry predicate rejects, the engine returns at once with `ErrorRetryIf`:
the `OnRetry` trace is exactly what it was on entry (the callback is not
invoked for that attempt) and the per-error budget map is returned exactly
as it was on entry (no entry is decremented), whatever the remaining global
budget.  The error is still appended to the detail list when recording is
on, as in the code. -/
theorem go_predicate_reject_frame (cfg : Config) (fn : Nat → Except GoError Nat)
    (fuel count : Nat) (errs : List GoError) (m : List (GoError × Nat))
    (trace : List (Nat × GoError)) (e : GoError)
    (hc : cfg.ctx.isDone count = false) (hf : fn count = .error e)
    (hp : cfg.retryIfFunc e = false) :
    go cfg fn (fuel + 1) count errs m trace =
      ⟨count + 1, none, some .errorRetryIf,
        (if cfg.detail = true then errs ++ [e] else errs), m, trace⟩ := by
  rw [go]
  simp [hc, hf, hp]

/-- Witness for claim C10 at a mid-run state: entry map and trace are
returned unchanged on the predicate-rejected path. -/
theorem go_predicate_reject_frame_witness :
    go ⟨⟨none, .userErr 7⟩, 5, [(.userErr 0, 4)], fun _ => false, true⟩
      (fun _ => .error (.userErr 0)) 3 1 [.userErr 2] [(.userErr 0, 4)] [(1, .userErr 2)] =
    ⟨2, none, some .errorRetryIf, [.userErr 2, .userErr 0], [(.userErr 0, 4)],
      [(1, .userErr 2)]⟩ :=
  go_predicate_reject_frame _ _ 2 1 [.userErr 2] [(.userErr 0, 4)] [(1, .userErr 2)]
    (.userErr 0) rfl rfl rfl

end RetryPkg
